import Mathlib

set_option maxHeartbeats 1000000

/-- Go uint64 modulus: machine integers of the aggregator (batch numbers,
block numbers) are uint64 and wrap modulo this constant. -/
def U64 : Nat := 2 ^ 64

/-- Go uint64 subtraction a - b: wrap-around modulo 2^64 (for representable
inputs a, b < U64). -/
def u64sub (a b : Nat) : Nat := (a + (U64 - b % U64)) % U64

/-- Decimal digit character, as fmt.Sprintf renders each digit of a uint64. -/
def digitChar (d : Nat) : Char := Char.ofNat (48 + d)

/-- Fuel-indexed digit renderer; the fuel only makes the recursion
structural and is always sufficient when it exceeds the value. -/
def natDigitsCore : Nat → Nat → List Char
  | 0, _ => []
  | fuel + 1, n =>
    if n < 10 then [digitChar n]
    else natDigitsCore fuel (n / 10) ++ [digitChar (n % 10)]

/-- Decimal rendering of a natural number, as fmt.Sprintf with verb v prints
a uint64 (most significant digit first, no sign, no separators). -/
def natDigits (n : Nat) : List Char := natDigitsCore (n + 1) n

/-- Numeric value of a decimal digit character, none for a non-digit. -/
def digitVal (c : Char) : Option Nat :=
  if 48 ≤ c.toNat ∧ c.toNat ≤ 57 then some (c.toNat - 48) else none

/-- Accumulating base-10 scan used by the parse of a monitored-tx id segment;
stops with none at the first non-digit, as strconv.ParseUint does. -/
def parseDigitsCore : List Char → Nat → Option Nat
  | [], acc => some acc
  | c :: rest, acc =>
    match digitVal c with
    | none => none
    | some d => parseDigitsCore rest (acc * 10 + d)

/-- strconv.ParseUint on a character list in base 10: error on the empty
string or on any non-digit character. -/
def parseDigits : List Char → Option Nat
  | [] => none
  | c :: rest => parseDigitsCore (c :: rest) 0

/-- strings.Split with separator "-", modelled on character lists: returns
the (always nonempty) list of dash-free segments. -/
def splitDash : List Char → List (List Char)
  | [] => [[]]
  | c :: rest =>
    if c = '-' then [] :: splitDash rest
    else
      match splitDash rest with
      | [] => [[c]]
      | h :: t => (c :: h) :: t

/-- The reveal monitored-tx id, monitoredIDFormat rendered for a pair of
batch numbers: proof-from-{from}-to-{to}. -/
def buildMonitoredTxID (fromB toB : Nat) : List Char :=
  "proof".data ++
    ('-' :: ("from".data ++ ('-' :: (natDigits fromB ++
      ('-' :: ("to".data ++ ('-' :: natDigits toB)))))))

/-- The commit monitored-tx id, monitoredHashIDFormat rendered for a pair of
batch numbers: proof-hash-from-{from}-to-{to}. -/
def buildMonitoredHashTxID (fromB toB : Nat) : List Char :=
  "proof".data ++
    ('-' :: ("hash".data ++ ('-' :: ("from".data ++ ('-' :: (natDigits fromB ++
      ('-' :: ("to".data ++ ('-' :: natDigits toB)))))))))

/-- Splitting a monitored-tx id on dashes and parsing the segment at a given
position as a base-10 unsigned integer, as handleMonitoredTxResult and the
SendProofHash resend callback do with idSlice. -/
def parseIDSegment (s : List Char) (i : Nat) : Option Nat :=
  match (splitDash s).get? i with
  | none => none
  | some seg => parseDigits seg

/-- Big-endian 20-byte rendering of an Ethereum address value, as
common.HexToAddress yields a 20-byte array. -/
def addrBytes20 (a : Nat) : List Nat :=
  (List.range 20).map (fun i => a / 256 ^ (19 - i) % 256)

/-- A value handed to the go-solidity-sha3 Pack helper: either raw bytes
(paired with type string) or an address (paired with type address). -/
inductive SolValue where
  | bytes (b : List Nat)
  | address (a : Nat)

/-- Modelled from the spec: one packed element of the external
go-solidity-sha3 Pack. Type string with a byte value contributes the raw
bytes with no ABI padding; type address contributes exactly the 20 address
bytes. -/
def packOne : String → SolValue → List Nat
  | "string", .bytes b => b
  | "address", .address a => addrBytes20 a
  | _, _ => []

/-- Modelled from the spec: go-solidity-sha3 Pack over parallel type and
value lists is the tight concatenation of the packed elements. -/
def solidityPack : List String → List SolValue → List Nat
  | ty :: tys, v :: vs => packOne ty v ++ solidityPack tys vs
  | _, _ => []

/-- solsha3.SoliditySHA3 on one byte-string value: Keccak256 of the raw
bytes. The keccak primitive is external, so it is a parameter. -/
def soliditySHA3 (keccak : List Nat → List Nat) (b : List Nat) : List Nat := keccak b

/-- The proof hash computed by the sender for a final proof, exactly as
SendProofHash does it: sha3 of the proof bytes, packed as
pack(string address)(sha3, sender), then Keccak256 of the packed bytes. -/
def senderProofHash (keccak : List Nat → List Nat) (proofBytes : List Nat) (sender : Nat) : List Nat :=
  keccak (solidityPack ["string", "address"]
    [.bytes (soliditySHA3 keccak proofBytes), .address sender])

/-- The proof-hash formula as the specification states it:
Keccak256 of Sha3(proofBytes) tightly concatenated with the 20 sender
address bytes. -/
def specProofHashFormula (keccak : List Nat → List Nat) (proofBytes : List Nat) (sender : Nat) : List Nat :=
  keccak (keccak proofBytes ++ addrBytes20 sender)

/-- A row of the proof table: state.Proof restricted to the fields the
aggregator core reads and writes. -/
structure StateProof where
  batchNumber : Nat
  batchNumberFinal : Nat
  proofStr : String
  generatingSince : Option Nat
deriving DecidableEq

/-- Outcome record of validateEligibleFinalProof: the two returned booleans
plus the range handed to DeleteGeneratedProofs when the discard branch ran. -/
structure ValidateOutcome where
  eligible : Bool
  generate : Bool
  deletedRange : Option (Nat × Nat)
deriving DecidableEq

/-- validateEligibleFinalProof from the orchestrator: decides whether a
candidate proof is eligible against lastVerifiedBatchNum, discards proofs
entirely below the next batch to verify, and flags later proofs with
complete sequences as generate. checkComplete is the oracle result of
CheckProofContainsCompleteSequences and deleteOk of DeleteGeneratedProofs. -/
def validateEligibleFinalProof (p : StateProof) (lastVerifiedBatchNum : Nat)
    (checkComplete : Except Unit Bool) (deleteOk : Bool) : Except Unit ValidateOutcome :=
  let batchNumberToVerify := lastVerifiedBatchNum + 1
  if p.batchNumber ≠ batchNumberToVerify then
    if p.batchNumber < batchNumberToVerify ∧ batchNumberToVerify ≤ p.batchNumberFinal then
      match checkComplete with
      | .error _ => .error ()
      | .ok false => .ok ⟨false, false, none⟩
      | .ok true => .ok ⟨true, false, none⟩
    else if p.batchNumberFinal < batchNumberToVerify then
      if deleteOk then .ok ⟨false, false, some (p.batchNumber, p.batchNumberFinal)⟩
      else .error ()
    else
      match checkComplete with
      | .error _ => .error ()
      | .ok false => .ok ⟨false, false, none⟩
      | .ok true => .ok ⟨false, true, none⟩
  else
    match checkComplete with
    | .error _ => .error ()
    | .ok false => .ok ⟨false, false, none⟩
    | .ok true => .ok ⟨true, false, none⟩

/-- Result of GetFinalProofByMonitoredId as seen by tryBuildFinalProof:
a stored final proof was found, was absent (ErrNotFound), or the read
failed with another error. -/
inductive LookupResult where
  | found
  | notFound
  | failed
deriving DecidableEq

/-- Observable outcome of tryBuildFinalProof when called with a candidate
proof: ok is the absence of a returned error, built the returned boolean,
requestedFinalProof records whether prover.FinalProof was requested, and
deletedRange the range discarded via DeleteGeneratedProofs. -/
structure TryBuildOutcome where
  ok : Bool
  built : Bool
  requestedFinalProof : Bool
  deletedRange : Option (Nat × Nat)
deriving DecidableEq

/-- The candidate-proof path of tryBuildFinalProof: look up the stored
final proof by its monitored id, read the last verified batch (ErrNotFound
tolerated as zero), validate eligibility, then either stop, reuse the
stored final proof, or request a fresh final proof from the prover
(buildFinalProof); proverBuildOk is the oracle result of that round trip. -/
def tryBuildFinalProofWithProof (p : StateProof) (finalProofLookup : LookupResult)
    (lastVerifiedBatch : Option Nat) (checkComplete : Except Unit Bool)
    (deleteOk : Bool) (proverBuildOk : Bool) : TryBuildOutcome :=
  if finalProofLookup = .failed then ⟨false, false, false, none⟩
  else
    let lastVerifiedBatchNum := lastVerifiedBatch.getD 0
    match validateEligibleFinalProof p lastVerifiedBatchNum checkComplete deleteOk with
    | .error _ => ⟨false, false, false, none⟩
    | .ok v =>
      if ¬ v.eligible ∧ ¬ v.generate then ⟨true, false, false, v.deletedRange⟩
      else if finalProofLookup = .found then ⟨true, true, false, v.deletedRange⟩
      else if proverBuildOk then ⟨true, true, true, v.deletedRange⟩
      else ⟨false, false, true, v.deletedRange⟩

/-- Modelled from the spec: ProofStore.deleteGeneratedProofs removes every
row fully covered by the closed range (the store implementation is not
among the sources). -/
def deleteGeneratedProofs (fromB toB : Nat) (st : List StateProof) : List StateProof :=
  st.filter (fun q => ¬ (fromB ≤ q.batchNumber ∧ q.batchNumberFinal ≤ toB))

/-- Modelled from the spec: ProofStore.addGeneratedProof stores the new row
(its conflict failure is driven by the addOk oracle at the call site). -/
def addGeneratedProof (q : StateProof) (st : List StateProof) : List StateProof :=
  st ++ [q]

/-- The replacement row built by tryAggregateProofs for the pair (p1, p2):
covers p1.batchNumber through p2.batchNumberFinal, carries the fresh
recursive proof, and is created locked (generatingSince = now). -/
def aggregatedProofRow (p1 p2 : StateProof) (recursiveProof : String) (now : Nat) : StateProof :=
  { batchNumber := p1.batchNumber
    batchNumberFinal := p2.batchNumberFinal
    proofStr := recursiveProof
    generatingSince := some now }

/-- Result of the single-transaction store update of tryAggregateProofs. -/
structure AggregateCommitResult where
  ok : Bool
  store : List StateProof
deriving DecidableEq

/-- The store update tryAggregateProofs performs after WaitRecursiveProof
succeeds: in one transaction delete every proof covered by
p1.batchNumber..p2.batchNumberFinal and add the replacement row locked at
now; any failure (begin, delete, add, commit, driven by the Ok oracles)
rolls the transaction back, leaving the store unchanged. -/
def tryAggregateCommit (st : List StateProof) (p1 p2 : StateProof) (recursiveProof : String)
    (now : Nat) (beginOk delOk addOk commitOk : Bool) : AggregateCommitResult :=
  if ¬ beginOk then ⟨false, st⟩
  else if ¬ delOk then ⟨false, st⟩
  else
    let st1 := deleteGeneratedProofs p1.batchNumber p2.batchNumberFinal st
    if ¬ addOk then ⟨false, st⟩
    else if ¬ commitOk then ⟨false, st⟩
    else ⟨true, addGeneratedProof (aggregatedProofRow p1 p2 recursiveProof now) st1⟩

/-- Externally visible steps of Aggregator.Start, in execution order. -/
inductive StartEvent where
  | metricsRegistered
  | deleteUngeneratedProofsCalled
  | generateProofServiceStarted
deriving DecidableEq

/-- Result of Aggregator.Start up to the point where it blocks on its
context: the ordered events it performed and whether it returned an error
instead of starting the service. -/
structure StartResult where
  events : List StartEvent
  errored : Bool
deriving DecidableEq

/-- Aggregator.Start: register metrics, call DeleteUngeneratedProofs, and
only if that succeeds start the proof-generation service; deleteOk drives
the store result. -/
def aggregatorStart (deleteOk : Bool) : StartResult :=
  if deleteOk then
    ⟨[.metricsRegistered, .deleteUngeneratedProofsCalled, .generateProofServiceStarted], false⟩
  else ⟨[.metricsRegistered, .deleteUngeneratedProofsCalled], true⟩

/-- finalProofMsg: a final proof travelling from the arranger to the
sender, flattened to the fields the sender reads (the recursive-proof batch
range, the prover identity, and the final proof bytes). -/
structure FinalProofMsg where
  proverName : String
  proverID : String
  batchNumber : Nat
  batchNumberFinal : Nat
  finalProofBytes : List Nat
deriving DecidableEq

/-- finalProofMsgList.Less turned into the nonstrict ordering key of the
future-message cache: compare by batchNumberFinal. -/
def finalProofMsgLe (a b : FinalProofMsg) : Bool :=
  a.batchNumberFinal ≤ b.batchNumberFinal

/-- One sorted insertion, the building block of the cache re-sort. -/
def insertSortedMsg (m : FinalProofMsg) : List FinalProofMsg → List FinalProofMsg
  | [] => [m]
  | x :: xs => if finalProofMsgLe m x then m :: x :: xs else x :: insertSortedMsg m xs

/-- Sorting of the whole cache by batchNumberFinal. sort.Sort in the source
is an unstable comparison sort; any rearrangement nondecreasing in
finalProofMsgList.Less models it. -/
def sortFinalProofMsgList : List FinalProofMsg → List FinalProofMsg
  | [] => []
  | x :: xs => insertSortedMsg x (sortFinalProofMsgList xs)

/-- insertFinalProofMsgCache: append the message and re-sort the whole
cache by batchNumberFinal (sort.Sort with finalProofMsgList.Less). -/
def insertFinalProofMsgCache (cache : List FinalProofMsg) (m : FinalProofMsg) :
    List FinalProofMsg :=
  sortFinalProofMsgList (cache ++ [m])

/-- upFinalProofMsgCache: pop and return the head when the cache is
nonempty, otherwise return nil and leave the cache untouched. -/
def upFinalProofMsgCache (cache : List FinalProofMsg) :
    Option FinalProofMsg × List FinalProofMsg :=
  match cache with
  | [] => (none, [])
  | m :: rest => (some m, rest)

/-- proofHash: a reveal task queued on the proofHashCh channel. -/
structure ProofHashTask where
  hash : List Nat
  batchNumber : Nat
  batchNumberFinal : Nat
  monitoredProofHashTxID : List Char
deriving DecidableEq

/-- The slot-fill step of the sender loop: the cache head is popped only
when both the reveal task and the commit slot are empty; otherwise slot and
cache are left as they are. -/
def fillCommitSlot (proofSendTask : Option ProofHashTask) (slot : Option FinalProofMsg)
    (cache : List FinalProofMsg) : Option FinalProofMsg × List FinalProofMsg :=
  match proofSendTask, slot with
  | none, none => upFinalProofMsgCache cache
  | _, _ => (slot, cache)

/-- A row of the prover_proof table as SendProof reads it back. -/
structure ProverProofRow where
  initNumBatch : Nat
  finalNewBatch : Nat
  newStateRoot : Nat
  localExitRoot : Nat
  proofBytes : List Nat
deriving DecidableEq

/-- Observable outcome of one SendProof call: the task value returned to
the loop (kept on error, dropped otherwise), the sendFailProofMsg emitted
on the retry channel, the pair of batch arguments passed to
BuildUnTrustedVerifyBatchesTxData, the monitored-tx id submitted to the L1
monitor, and whether an error was returned. -/
structure SendProofResult where
  retTask : Option ProofHashTask
  sentFailMsg : Option (Nat × Nat)
  builtVerifyArgs : Option (Nat × Nat)
  addedTxID : Option (List Char)
  errored : Bool
deriving DecidableEq

/-- SendProof, the sender's Phase P, as a function of its task and of the
oracle results of its collaborators: GetSequencedBatch (block of the
sequence plus whether anyone already revealed), GetLatestBlockNumber,
GetProverProofByHash, and the build and submit steps. H and P are the
uint8 epoch constants; their sum is taken in uint8 as the code does. -/
def sendProofStep (H P : Nat) (task : ProofHashTask)
    (oSeq : Option (Nat × Bool)) (oBlk : Option Nat)
    (oProverProof : Option ProverProofRow) (oBuildOk oAddOk : Bool) : SendProofResult :=
  match oSeq with
  | none => ⟨some task, none, none, none, true⟩
  | some (proofHashBlockNum, proofSubmitted) =>
    match oBlk with
    | none => ⟨some task, none, none, none, true⟩
    | some blockNumber =>
      if (proofHashBlockNum + (H + P) % 256) % U64 < blockNumber ∧
          (¬ proofSubmitted ∧
            u64sub blockNumber proofHashBlockNum % ((H + P) % 256) < H) then
        ⟨none, some (task.batchNumber, task.batchNumberFinal), none, none, true⟩
      else
        match oProverProof with
        | none => ⟨some task, none, none, none, true⟩
        | some pp =>
          if ¬ oBuildOk then
            ⟨some task, none, some (u64sub pp.initNumBatch 1, pp.finalNewBatch), none, true⟩
          else if ¬ oAddOk then
            ⟨some task, none, some (u64sub pp.initNumBatch 1, pp.finalNewBatch), none, true⟩
          else
            ⟨none, none, some (u64sub pp.initNumBatch 1, pp.finalNewBatch),
              some (buildMonitoredTxID pp.initNumBatch pp.finalNewBatch), false⟩

/-- proofHashSendTask: the commit-slot state of the sender loop, without
the message itself (the message occupies the slot and is passed alongside). -/
structure ProofHashSendTask where
  blockNumber : Nat
  commitProofHashBatchNum : Nat
deriving DecidableEq

/-- The two roots of the batch returned by GetBatchByNumber that Phase H
copies into the prover_proof row. -/
structure BatchRoots where
  stateRoot : Nat
  localExitRoot : Nat
deriving DecidableEq

/-- The prover_proof row Phase H upserts before submitting the commit. -/
structure ProverProofInsert where
  initNumBatch : Nat
  finalNewBatch : Nat
  newStateRoot : Nat
  localExitRoot : Nat
  proofBytes : List Nat
  proofHash : List Nat
deriving DecidableEq

/-- Observable outcome of one SendProofHash call: the commit slot after the
call (the message kept, cleared, or replaced by a resend), the updated
block cursor and committed batch number, the message re-inserted into the
future cache, the prover_proof row written, the arguments passed to
BuildProofHashTxData, the monitored-tx id submitted, the
monitorSendProof instance spawned, and whether an error was returned. -/
structure SendProofHashResult where
  slotMsg : Option FinalProofMsg
  blockNumber : Nat
  commitProofHashBatchNum : Nat
  cacheInserted : Option FinalProofMsg
  proverProofInserted : Option ProverProofInsert
  builtHashArgs : Option (Nat × Nat × List Nat)
  addedTxID : Option (List Char)
  monitorStarted : Option (Nat × Nat × List Char)
  errored : Bool
deriving DecidableEq

/-- The first step of Phase H on its committed batch cursor: raise
commitProofHashBatchNum to the latest L1-verified batch when it is below
it. -/
def raisedCommit (commit lv : Nat) : Nat :=
  if commit ≤ lv then lv else commit

/-- The prover_proof row Phase H writes when the row for this hash is not
already present (GetProverProofByHash found nothing). -/
def phaseHProverProofInsert (keccak : List Nat → List Nat) (senderAddress : Nat)
    (msg : FinalProofMsg) (fb : BatchRoots) (oProverProofFound : Bool) :
    Option ProverProofInsert :=
  if oProverProofFound then none
  else some ⟨msg.batchNumber, msg.batchNumberFinal, fb.stateRoot, fb.localExitRoot,
    msg.finalProofBytes, senderProofHash keccak msg.finalProofBytes senderAddress⟩

/-- SendProofHash, the sender's Phase H, as a function of the commit-slot
task, the message occupying the slot, and the oracle results of its
collaborators: GetLatestVerifiedBatchNum, GetLatestBlockNumber,
GetSequencedBatch, GetBatchByNumber, the GetProverProofByHash and
AddProverProof round trip, BuildProofHashTxData, the L1 monitor Add, and
the failed-commit resend reconstructed by ProcessPendingMonitoredTxs. -/
def sendProofHashStep (keccak : List Nat → List Nat) (H P : Nat) (senderAddress : Nat)
    (task : ProofHashSendTask) (msg : FinalProofMsg)
    (oLastVerified : Option Nat) (oCurBlock : Option Nat) (oSeq : Option (Nat × Bool))
    (oFinalBatch : Option BatchRoots) (oProverProofFound : Bool) (oAddProverProofOk : Bool)
    (oBuildOk : Bool) (oAddTxOk : Bool) (oResendMsg : Option FinalProofMsg) :
    SendProofHashResult :=
  match oLastVerified with
  | none =>
    ⟨some msg, task.blockNumber, task.commitProofHashBatchNum, none, none, none, none, none, true⟩
  | some lv =>
    match oCurBlock with
    | none =>
      ⟨some msg, task.blockNumber, raisedCommit task.commitProofHashBatchNum lv,
        none, none, none, none, none, true⟩
    | some cur =>
      if 0 < task.blockNumber ∧ cur < task.blockNumber + 1 then
        ⟨some msg, task.blockNumber, raisedCommit task.commitProofHashBatchNum lv,
          none, none, none, none, none, false⟩
      else if msg.batchNumber < raisedCommit task.commitProofHashBatchNum lv + 1 then
        ⟨none, cur, raisedCommit task.commitProofHashBatchNum lv,
          none, none, none, none, none, true⟩
      else if raisedCommit task.commitProofHashBatchNum lv + 1 < msg.batchNumber then
        ⟨none, cur, raisedCommit task.commitProofHashBatchNum lv,
          some msg, none, none, none, none, true⟩
      else
        match oSeq with
        | none =>
          ⟨some msg, cur, raisedCommit task.commitProofHashBatchNum lv,
            none, none, none, none, none, true⟩
        | some (sequenceBlockNum, _) =>
          if 0 < sequenceBlockNum ∧
              H < u64sub cur sequenceBlockNum % ((P + H) % 256) then
            ⟨none, cur, raisedCommit task.commitProofHashBatchNum lv,
              none, none, none, none, none, true⟩
          else
            match oFinalBatch with
            | none =>
              ⟨some msg, cur, raisedCommit task.commitProofHashBatchNum lv,
                none, none, none, none, none, true⟩
            | some fb =>
              if ¬ oProverProofFound ∧ ¬ oAddProverProofOk then
                ⟨some msg, cur, raisedCommit task.commitProofHashBatchNum lv,
                  none, none, none, none, none, true⟩
              else if ¬ oBuildOk then
                ⟨some msg, cur, raisedCommit task.commitProofHashBatchNum lv, none,
                  phaseHProverProofInsert keccak senderAddress msg fb oProverProofFound,
                  some (u64sub msg.batchNumber 1, msg.batchNumberFinal,
                    senderProofHash keccak msg.finalProofBytes senderAddress),
                  none, none, true⟩
              else if ¬ oAddTxOk then
                ⟨some msg, cur, raisedCommit task.commitProofHashBatchNum lv, none,
                  phaseHProverProofInsert keccak senderAddress msg fb oProverProofFound,
                  some (u64sub msg.batchNumber 1, msg.batchNumberFinal,
                    senderProofHash keccak msg.finalProofBytes senderAddress),
                  none, none, true⟩
              else
                match oResendMsg with
                | some m2 =>
                  ⟨some m2, cur, raisedCommit task.commitProofHashBatchNum lv, none,
                    phaseHProverProofInsert keccak senderAddress msg fb oProverProofFound,
                    some (u64sub msg.batchNumber 1, msg.batchNumberFinal,
                      senderProofHash keccak msg.finalProofBytes senderAddress),
                    some (buildMonitoredHashTxID msg.batchNumber msg.batchNumberFinal),
                    none, true⟩
                | none =>
                  ⟨none, cur, msg.batchNumberFinal, none,
                    phaseHProverProofInsert keccak senderAddress msg fb oProverProofFound,
                    some (u64sub msg.batchNumber 1, msg.batchNumberFinal,
                      senderProofHash keccak msg.finalProofBytes senderAddress),
                    some (buildMonitoredHashTxID msg.batchNumber msg.batchNumberFinal),
                    some (msg.batchNumber, msg.batchNumberFinal,
                      buildMonitoredHashTxID msg.batchNumber msg.batchNumberFinal), false⟩

/-- Result of GetProofHashBySender inside monitorSendProof: the committed
hash, the definitive ProofNotCommit error, or a transient failure. -/
inductive HashLookup where
  | found (h : List Nat)
  | notCommit
  | failed
deriving DecidableEq

/-- What one tick of monitorSendProof does: keep waiting, stop the ticker,
or push a reveal task onto proofHashCh and stop. -/
inductive MonitorTickOutcome where
  | wait
  | stop
  | push (t : ProofHashTask)
deriving DecidableEq

/-- One tick of monitorSendProof for a commit on batches
batchNumber..batchNumberFinal: re-poll until it is this sender's turn
(lastVerifiedEthBatchNum + 1 = batchNumber), the reveal window is open,
and the committed hash is readable; then push the reveal task. -/
def monitorSendProofTick (H P : Nat) (batchNumber batchNumberFinal : Nat)
    (monitoredTxID : List Char) (oBlk : Option Nat) (oLastVerified : Option Nat)
    (oSeq : Option (Nat × Bool)) (oProofHash : HashLookup) : MonitorTickOutcome :=
  match oBlk with
  | none => .wait
  | some blockNumber =>
    match oLastVerified with
    | none => .wait
    | some lastVerifiedEthBatchNum =>
      if batchNumberFinal ≤ lastVerifiedEthBatchNum then .wait
      else if lastVerifiedEthBatchNum + 1 ≠ batchNumber then .wait
      else
        match oSeq with
        | none => .wait
        | some (proofHashBlockNum, _) =>
          if proofHashBlockNum = 0 ∨
              u64sub blockNumber proofHashBlockNum % ((H + P) % 256) < H then .wait
          else
            match oProofHash with
            | .notCommit => .stop
            | .failed => .wait
            | .found h => .push ⟨h, batchNumber, batchNumberFinal, monitoredTxID⟩

/-- GetSequence as the boot replay sees it: a sequence, the
StateNotSynchronized signal, or a hard failure. -/
inductive SeqLookup where
  | notSynchronized
  | failed
  | found (fromB toB : Nat)
deriving DecidableEq

/-- The collaborators of the boot-time replay submitPendingProofs. The
latest L1-verified batch number is part of the environment although the
replay never consults it. -/
structure BootEnv where
  lastVerifiedEthBatchNum : Nat
  lastProofSubmissionID : Option (List Char)
  getSequence : Nat → SeqLookup
  haveMonitoredTxById : List Char → Option Bool
  finalProofBytesOf : List Char → List Nat

/-- Result of the boot replay: the reveal tasks pushed onto proofHashCh in
order, and whether the replay returned an error. -/
structure BootReplayResult where
  pushed : List ProofHashTask
  errored : Bool
deriving DecidableEq

/-- The scan loop of submitPendingProofs: walk sequences upward from the
batch after the last submitted proof; for each sequence whose commit
monitored tx exists, recompute the proof hash from the stored final proof
and push the reveal task, then continue after the sequence. The fuel only
bounds the recursion and is irrelevant on terminating runs. -/
def submitPendingProofsLoop (keccak : List Nat → List Nat) (senderAddress : Nat)
    (env : BootEnv) : Nat → Nat → List ProofHashTask → BootReplayResult
  | 0, _, acc => ⟨acc, false⟩
  | fuel + 1, pendingPhBatchNum, acc =>
    match env.getSequence pendingPhBatchNum with
    | .notSynchronized => ⟨acc, false⟩
    | .failed => ⟨acc, true⟩
    | .found fromB toB =>
      let pendingPhMonitoredID := buildMonitoredHashTxID fromB toB
      match env.haveMonitoredTxById pendingPhMonitoredID with
      | none => ⟨acc, true⟩
      | some false => ⟨acc, false⟩
      | some true =>
        let pendingProofMonitoredID := buildMonitoredTxID fromB toB
        let fp := env.finalProofBytesOf pendingProofMonitoredID
        let hash := senderProofHash keccak fp senderAddress
        submitPendingProofsLoop keccak senderAddress env fuel (toB + 1)
          (acc ++ [⟨hash, fromB, toB, pendingPhMonitoredID⟩])

/-- submitPendingProofs, the arranger's boot-time replay: parse the final
batch number out of the last submitted reveal id (segment 4 of the split on
dashes) and replay every pending commit from the following batch on. -/
def submitPendingProofs (keccak : List Nat → List Nat) (senderAddress : Nat)
    (env : BootEnv) (fuel : Nat) : BootReplayResult :=
  match env.lastProofSubmissionID with
  | none => ⟨[], true⟩
  | some monitorID =>
    match parseIDSegment monitorID 4 with
    | none => ⟨[], true⟩
    | some proofBatchNumFinal =>
      submitPendingProofsLoop keccak senderAddress env fuel (proofBatchNumFinal + 1) []

/-- Concrete stand-in for the external Keccak256 primitive, used to run the
embedded functions on closed inputs. -/
def bootKeccak (b : List Nat) : List Nat := 0 :: b

/-- Concrete boot environment: the last submitted reveal covered batches
1..3, the next sequence is the single batch 4 with a pending commit, and
L1 has verified only up to batch 2. -/
def bootEnvFixture : BootEnv where
  lastVerifiedEthBatchNum := 2
  lastProofSubmissionID := some (buildMonitoredTxID 1 3)
  getSequence := fun n => if n = 4 then .found 4 4 else .notSynchronized
  haveMonitoredTxById := fun _ => some true
  finalProofBytesOf := fun _ => [1]

theorem natDigitsCore_no_dash (fuel : Nat) :
    ∀ n c, c ∈ natDigitsCore fuel n → c ≠ '-' := by
  induction fuel with
  | zero => intro n c hc; simp [natDigitsCore] at hc
  | succ f ih =>
    intro n c hc
    unfold natDigitsCore at hc
    by_cases h : n < 10
    · rw [if_pos h] at hc
      simp at hc
      subst hc
      interval_cases n <;> decide
    · rw [if_neg h] at hc
      rcases List.mem_append.mp hc with h1 | h2
      · exact ih _ _ h1
      · simp at h2
        subst h2
        have : n % 10 < 10 := Nat.mod_lt _ (by omega)
        interval_cases h : n % 10 <;> decide

theorem natDigits_no_dash (n : Nat) : ∀ c ∈ natDigits n, c ≠ '-' := by
  intro c hc
  exact natDigitsCore_no_dash (n + 1) n c hc

theorem natDigitsCore_ne_nil (fuel n : Nat) (h : n < fuel) :
    natDigitsCore fuel n ≠ [] := by
  cases fuel with
  | zero => omega
  | succ f =>
    unfold natDigitsCore
    by_cases h10 : n < 10
    · rw [if_pos h10]; simp
    · rw [if_neg h10]; simp

theorem parseDigitsCore_append (ds es : List Char) :
    ∀ acc, parseDigitsCore (ds ++ es) acc =
      match parseDigitsCore ds acc with
      | none => none
      | some v => parseDigitsCore es v := by
  induction ds with
  | nil => intro acc; simp [parseDigitsCore]
  | cons c rest ih =>
    intro acc
    simp only [List.cons_append, parseDigitsCore]
    cases digitVal c with
    | none => simp
    | some d => simp [ih]

theorem digitVal_digitChar (d : Nat) (h : d < 10) : digitVal (digitChar d) = some d := by
  interval_cases d <;> decide

theorem parseDigitsCore_natDigitsCore (fuel : Nat) :
    ∀ n acc, n < fuel →
      parseDigitsCore (natDigitsCore fuel n) acc =
        some (acc * 10 ^ (natDigitsCore fuel n).length + n) := by
  induction fuel with
  | zero => intro n acc h; omega
  | succ f ih =>
    intro n acc h
    unfold natDigitsCore
    by_cases h10 : n < 10
    · rw [if_pos h10]
      simp [parseDigitsCore, digitVal_digitChar n h10]
    · rw [if_neg h10]
      have hdiv : n / 10 < f := by
        have h1 : n / 10 < n := Nat.div_lt_self (by omega) (by omega)
        omega
      rw [parseDigitsCore_append]
      rw [ih (n / 10) acc hdiv]
      have hm : n % 10 < 10 := Nat.mod_lt _ (by omega)
      simp only [parseDigitsCore, digitVal_digitChar (n % 10) hm]
      rw [List.length_append]
      simp only [List.length_singleton]
      congr 1
      rw [pow_succ]
      have := Nat.div_add_mod n 10
      ring_nf
      omega

theorem parseDigits_natDigits (n : Nat) : parseDigits (natDigits n) = some n := by
  have hne : natDigits n ≠ [] := natDigitsCore_ne_nil (n + 1) n (by omega)
  have hcore : parseDigitsCore (natDigits n) 0 =
      some (0 * 10 ^ (natDigits n).length + n) :=
    parseDigitsCore_natDigitsCore (n + 1) n 0 (by omega)
  cases h : natDigits n with
  | nil => exact absurd h hne
  | cons c rest =>
    rw [h] at hcore
    simpa [parseDigits] using hcore

theorem splitDash_no_dash (xs : List Char) (h : ∀ c ∈ xs, c ≠ '-') :
    splitDash xs = [xs] := by
  induction xs with
  | nil => rfl
  | cons c rest ih =>
    have hc : c ≠ '-' := h c (by simp)
    have hrest : splitDash rest = [rest] := ih (fun x hx => h x (by simp [hx]))
    simp [splitDash, hc, hrest]

theorem splitDash_append_dash (xs ys : List Char) (h : ∀ c ∈ xs, c ≠ '-') :
    splitDash (xs ++ '-' :: ys) = xs :: splitDash ys := by
  induction xs with
  | nil => simp [splitDash]
  | cons c rest ih =>
    have hc : c ≠ '-' := h c (by simp)
    have hrest := ih (fun x hx => h x (by simp [hx]))
    simp [splitDash, hc, hrest]

theorem splitDash_buildMonitoredTxID (fromB toB : Nat) :
    splitDash (buildMonitoredTxID fromB toB) =
      ["proof".data, "from".data, natDigits fromB, "to".data, natDigits toB] := by
  unfold buildMonitoredTxID
  rw [splitDash_append_dash _ _ (by decide)]
  rw [splitDash_append_dash _ _ (by decide)]
  rw [splitDash_append_dash _ _ (natDigits_no_dash fromB)]
  rw [splitDash_append_dash _ _ (by decide)]
  rw [splitDash_no_dash _ (natDigits_no_dash toB)]

theorem splitDash_buildMonitoredHashTxID (fromB toB : Nat) :
    splitDash (buildMonitoredHashTxID fromB toB) =
      ["proof".data, "hash".data, "from".data, natDigits fromB, "to".data, natDigits toB] := by
  unfold buildMonitoredHashTxID
  rw [splitDash_append_dash _ _ (by decide)]
  rw [splitDash_append_dash _ _ (by decide)]
  rw [splitDash_append_dash _ _ (by decide)]
  rw [splitDash_append_dash _ _ (natDigits_no_dash fromB)]
  rw [splitDash_append_dash _ _ (by decide)]
  rw [splitDash_no_dash _ (natDigits_no_dash toB)]

/-- C8. Monitored-tx id round trip: for u64 batch numbers, rendering the
reveal id proof-from-{from}-to-{to} (resp. the commit id
proof-hash-from-{from}-to-{to}) and then splitting on dashes and parsing
segments 2 and 4 (resp. 3 and 5) in base 10 yields back exactly the two
batch numbers. -/
theorem monitoredTxID_roundTrip (fromB toB : Nat) (_hf : fromB < U64) (_ht : toB < U64) :
    parseIDSegment (buildMonitoredTxID fromB toB) 2 = some fromB ∧
    parseIDSegment (buildMonitoredTxID fromB toB) 4 = some toB ∧
    parseIDSegment (buildMonitoredHashTxID fromB toB) 3 = some fromB ∧
    parseIDSegment (buildMonitoredHashTxID fromB toB) 5 = some toB := by
  unfold parseIDSegment
  rw [splitDash_buildMonitoredTxID, splitDash_buildMonitoredHashTxID]
  simp [List.get?, parseDigits_natDigits]

/-- Concrete instantiation of the C8 round trip at the largest uint64. -/
theorem monitoredTxID_roundTrip_witness :
    parseIDSegment (buildMonitoredTxID (2 ^ 64 - 1) 0) 2 = some (2 ^ 64 - 1) ∧
    parseIDSegment (buildMonitoredTxID (2 ^ 64 - 1) 0) 4 = some 0 ∧
    parseIDSegment (buildMonitoredHashTxID (2 ^ 64 - 1) 0) 3 = some (2 ^ 64 - 1) ∧
    parseIDSegment (buildMonitoredHashTxID (2 ^ 64 - 1) 0) 5 = some 0 :=
  monitoredTxID_roundTrip (2 ^ 64 - 1) 0 (by decide) (by decide)

/-- C1. Proof-hash formula: the hash Phase H computes for a final proof is
Keccak256 of Sha3 of the proof bytes tightly concatenated with the 20
sender address bytes (no ABI padding on the sha3 output), and this is the
hash both stored in the prover_proof row and passed to
BuildProofHashTxData. -/
theorem proofHash_commit_formula :
    (∀ (keccak : List Nat → List Nat) (proofBytes : List Nat) (sender : Nat),
        senderProofHash keccak proofBytes sender =
          specProofHashFormula keccak proofBytes sender ∧
        (addrBytes20 sender).length = 20) ∧
    (∀ keccak H P senderAddress task msg oLV oCB oSeq oFB pf apOk bOk atOk oR x y h,
        (sendProofHashStep keccak H P senderAddress task msg oLV oCB oSeq oFB pf apOk
            bOk atOk oR).builtHashArgs = some (x, y, h) →
          h = specProofHashFormula keccak msg.finalProofBytes senderAddress) ∧
    (∀ keccak H P senderAddress task msg oLV oCB oSeq oFB pf apOk bOk atOk oR row,
        (sendProofHashStep keccak H P senderAddress task msg oLV oCB oSeq oFB pf apOk
            bOk atOk oR).proverProofInserted = some row →
          row.proofHash = specProofHashFormula keccak msg.finalProofBytes senderAddress) := by
  have hmain : ∀ (keccak : List Nat → List Nat) (proofBytes : List Nat) (sender : Nat),
      senderProofHash keccak proofBytes sender =
        specProofHashFormula keccak proofBytes sender := by
    intro keccak pb sender
    simp [senderProofHash, specProofHashFormula, solidityPack, packOne, soliditySHA3]
  refine ⟨fun keccak pb sender => ⟨hmain keccak pb sender, by simp [addrBytes20]⟩, ?_, ?_⟩
  · intro keccak H P sa task msg oLV oCB oSeq oFB pf apOk bOk atOk oR x y h hx
    rcases oLV with _ | lv
    · simp [sendProofHashStep] at hx
    rcases oCB with _ | cur
    · simp [sendProofHashStep] at hx
    rcases oSeq with _ | ⟨sb, pr⟩ <;> rcases oFB with _ | fb <;> rcases oR with _ | m2 <;>
      simp only [sendProofHashStep] at hx <;>
      split_ifs at hx <;>
      simp_all [hmain keccak msg.finalProofBytes sa]
  · intro keccak H P sa task msg oLV oCB oSeq oFB pf apOk bOk atOk oR row hx
    rcases oLV with _ | lv
    · simp [sendProofHashStep] at hx
    rcases oCB with _ | cur
    · simp [sendProofHashStep] at hx
    rcases oSeq with _ | ⟨sb, pr⟩ <;> rcases oFB with _ | fb <;> rcases oR with _ | m2 <;>
      cases pf <;>
      simp only [sendProofHashStep] at hx <;>
      split_ifs at hx <;>
      simp_all [phaseHProverProofInsert, hmain keccak msg.finalProofBytes sa] <;>
      rw [← hx]

/-- Concrete instantiation of the C1 formula on a successful Phase H run. -/
theorem proofHash_commit_formula_witness :
    senderProofHash (fun b => 0 :: b) [1, 2] 3 =
      specProofHashFormula (fun b => 0 :: b) [1, 2] 3 :=
  proofHash_commit_formula.2.1 (fun b => 0 :: b) 2 3 3 ⟨0, 4⟩
    ⟨"n", "i", 5, 7, [1, 2]⟩ (some 4) (some 9) (some (0, false)) (some ⟨11, 12⟩)
    false true true true none (u64sub 5 1) 7
    (senderProofHash (fun b => 0 :: b) [1, 2] 3) (by decide)

/-- C2 counterexample: a candidate proof starting at batch 5 with
lastVerified 0 (so 5 exceeds lastVerified + 1) that contains complete
sequences and has no stored final proof makes tryBuildFinalProof request a
final proof from the prover instead of deferring. -/
theorem tryBuildFinalProof_later_counterexample :
    (some (0 : Nat)).getD 0 + 1 < 5 ∧
    (tryBuildFinalProofWithProof ⟨5, 6, "x", none⟩ .notFound (some 0) (.ok true)
        true true).requestedFinalProof = true := by decide

/-- C2 (amended). A candidate proof whose batchNumber exceeds
lastVerified + 1 and that does not contain complete sequences is deferred:
tryBuildFinalProof returns without error and without building, requests no
final proof from the prover, and deletes nothing. -/
theorem tryBuildFinalProof_defer (p : StateProof) (lookup : LookupResult)
    (lvb : Option Nat) (deleteOk proverBuildOk : Bool)
    (hL : lvb.getD 0 + 1 < p.batchNumber) (hI1 : p.batchNumber ≤ p.batchNumberFinal)
    (hlk : lookup ≠ .failed) :
    tryBuildFinalProofWithProof p lookup lvb (.ok false) deleteOk proverBuildOk =
      ⟨true, false, false, none⟩ := by
  have h1 : p.batchNumber ≠ lvb.getD 0 + 1 := by omega
  have h2 : ¬ (p.batchNumber < lvb.getD 0 + 1 ∧ lvb.getD 0 + 1 ≤ p.batchNumberFinal) := by
    omega
  have h3 : ¬ (p.batchNumberFinal < lvb.getD 0 + 1) := by omega
  simp [tryBuildFinalProofWithProof, validateEligibleFinalProof, h1, h2, h3, hlk]

/-- Concrete instantiation of the amended C2 defer behavior. -/
theorem tryBuildFinalProof_defer_witness :
    (some (2 : Nat)).getD 0 + 1 < 7 ∧
    tryBuildFinalProofWithProof ⟨7, 9, "p", none⟩ .notFound (some 2) (.ok false)
        true true = ⟨true, false, false, none⟩ :=
  ⟨by decide, tryBuildFinalProof_defer ⟨7, 9, "p", none⟩ .notFound (some 2) true true
    (by decide) (by decide) (by decide)⟩

/-- C4. The aggregation store update is transactional: on success the store
becomes the old store minus every row covered by
p1.batchNumber..p2.batchNumberFinal plus one new row with
batchNumber = p1.batchNumber, batchNumberFinal = p2.batchNumberFinal and a
non-null generatingSince = now; on any failure the store is unchanged. -/
theorem tryAggregateCommit_spec (st : List StateProof) (p1 p2 : StateProof)
    (rp : String) (now : Nat) (bOk dOk aOk cOk : Bool) :
    ((tryAggregateCommit st p1 p2 rp now bOk dOk aOk cOk).ok = true →
      (tryAggregateCommit st p1 p2 rp now bOk dOk aOk cOk).store =
        addGeneratedProof (aggregatedProofRow p1 p2 rp now)
          (deleteGeneratedProofs p1.batchNumber p2.batchNumberFinal st) ∧
      (aggregatedProofRow p1 p2 rp now).batchNumber = p1.batchNumber ∧
      (aggregatedProofRow p1 p2 rp now).batchNumberFinal = p2.batchNumberFinal ∧
      (aggregatedProofRow p1 p2 rp now).generatingSince = some now) ∧
    ((tryAggregateCommit st p1 p2 rp now bOk dOk aOk cOk).ok = false →
      (tryAggregateCommit st p1 p2 rp now bOk dOk aOk cOk).store = st) := by
  cases bOk <;> cases dOk <;> cases aOk <;> cases cOk <;>
    simp [tryAggregateCommit, aggregatedProofRow, addGeneratedProof]

/-- Concrete instantiation of the C4 success case. -/
theorem tryAggregateCommit_spec_witness :
    (tryAggregateCommit [] ⟨1, 1, "a", none⟩ ⟨2, 2, "b", none⟩ "rp" 7
        true true true true).store =
      addGeneratedProof (aggregatedProofRow ⟨1, 1, "a", none⟩ ⟨2, 2, "b", none⟩ "rp" 7)
        (deleteGeneratedProofs (StateProof.mk 1 1 "a" none).batchNumber
          (StateProof.mk 2 2 "b" none).batchNumberFinal []) :=
  ((tryAggregateCommit_spec [] ⟨1, 1, "a", none⟩ ⟨2, 2, "b", none⟩ "rp" 7
    true true true true).1 (by decide)).1

/-- C10. Aggregator.Start always calls DeleteUngeneratedProofs before
starting the proof-generation service, and if the deletion fails it
returns an error without starting the service. -/
theorem aggregatorStart_deletes_before_start (deleteOk : Bool) :
    ((aggregatorStart deleteOk).events =
        [.metricsRegistered, .deleteUngeneratedProofsCalled, .generateProofServiceStarted] ∨
      (aggregatorStart deleteOk).events =
        [.metricsRegistered, .deleteUngeneratedProofsCalled]) ∧
    (deleteOk = false → (aggregatorStart deleteOk).errored = true ∧
      StartEvent.generateProofServiceStarted ∉ (aggregatorStart deleteOk).events) ∧
    (StartEvent.generateProofServiceStarted ∈ (aggregatorStart deleteOk).events →
      deleteOk = true ∧ (aggregatorStart deleteOk).errored = false ∧
      (aggregatorStart deleteOk).events =
        [.metricsRegistered, .deleteUngeneratedProofsCalled,
          .generateProofServiceStarted]) := by
  cases deleteOk <;> decide

/-- Concrete instantiation of the C10 failure case. -/
theorem aggregatorStart_deletes_before_start_witness :
    (aggregatorStart false).errored = true ∧
    StartEvent.generateProofServiceStarted ∉ (aggregatorStart false).events :=
  (aggregatorStart_deletes_before_start false).2.1 rfl

theorem u64sub_eq_sub (a b : Nat) (hba : b ≤ a) (ha : a < U64) : u64sub a b = a - b := by
  have h64 : U64 = 18446744073709551616 := by norm_num [U64]
  unfold u64sub
  rw [h64] at ha ⊢
  omega

/-- C5. When the absolute submission window of a reveal task is past
(seqBlock + H + P < current block), nobody has submitted a proof, and the
chain sits in a fresh hash epoch ((blk - seqBlock) mod (H+P) < H),
SendProof emits a sendFailProofMsg with the task's batch range and drops
the task without building or submitting any reveal transaction. -/
theorem sendProof_expired_window (H P : Nat) (task : ProofHashTask) (sb blk : Nat)
    (pp : Option ProverProofRow) (bOk aOk : Bool)
    (hHP : H + P < 256) (hblk : blk < U64) (hwin : sb + (H + P) < blk)
    (hmod : (blk - sb) % (H + P) < H) :
    sendProofStep H P task (some (sb, false)) (some blk) pp bOk aOk =
      ⟨none, some (task.batchNumber, task.batchNumberFinal), none, none, true⟩ := by
  have hmodeq : (H + P) % 256 = H + P := Nat.mod_eq_of_lt hHP
  have hsum : (sb + (H + P) % 256) % U64 = sb + (H + P) := by
    rw [hmodeq]
    exact Nat.mod_eq_of_lt (by omega)
  have hsub : u64sub blk sb = blk - sb := u64sub_eq_sub blk sb (by omega) hblk
  have hcond : (sb + (H + P) % 256) % U64 < blk ∧
      (¬ (false = true) ∧ u64sub blk sb % ((H + P) % 256) < H) :=
    ⟨by rw [hsum]; omega, by simp, by rw [hsub, hmodeq]; exact hmod⟩
  simp only [sendProofStep]
  rw [if_pos hcond]

/-- Concrete instantiation of the C5 drop-and-signal behavior. -/
theorem sendProof_expired_window_witness :
    (2 + 3 < 256 ∧ (100 : Nat) < U64 ∧ 10 + (2 + 3) < 100 ∧ (100 - 10) % (2 + 3) < 2) ∧
    sendProofStep 2 3 ⟨[0], 4, 7, []⟩ (some (10, false)) (some 100) none true true =
      ⟨none, some (4, 7), none, none, true⟩ :=
  ⟨⟨by decide, by decide, by decide, by decide⟩,
    sendProof_expired_window 2 3 ⟨[0], 4, 7, []⟩ 10 100 none true true
      (by decide) (by decide) (by decide) (by decide)⟩

/-- C6. A stale final-proof message (commitProofHashBatchNum + 1 greater
than its batchNumber) is dropped by SendProofHash: once the block guard
passes, the commit slot is cleared, nothing is cached or stored, no
calldata is built, no L1 transaction is submitted, and no reveal monitor is
spawned. -/
theorem sendProofHash_stale_drop (keccak : List Nat → List Nat) (H P senderAddress : Nat)
    (task : ProofHashSendTask) (msg : FinalProofMsg) (lv cur : Nat)
    (oSeq : Option (Nat × Bool)) (oFB : Option BatchRoots) (pf apOk bOk atOk : Bool)
    (oR : Option FinalProofMsg)
    (hblk : ¬ (0 < task.blockNumber ∧ cur < task.blockNumber + 1))
    (hstale : msg.batchNumber < task.commitProofHashBatchNum + 1) :
    sendProofHashStep keccak H P senderAddress task msg (some lv) (some cur) oSeq oFB
        pf apOk bOk atOk oR =
      ⟨none, cur, raisedCommit task.commitProofHashBatchNum lv,
        none, none, none, none, none, true⟩ := by
  have hr : task.commitProofHashBatchNum ≤ raisedCommit task.commitProofHashBatchNum lv := by
    unfold raisedCommit
    split <;> omega
  simp only [sendProofHashStep]
  rw [if_neg hblk, if_pos (by omega :
    msg.batchNumber < raisedCommit task.commitProofHashBatchNum lv + 1)]

/-- Concrete instantiation of the C6 stale-message drop. -/
theorem sendProofHash_stale_drop_witness :
    ((4 : Nat) < 5 + 1) ∧
    sendProofHashStep bootKeccak 2 3 9 ⟨0, 5⟩ ⟨"n", "i", 4, 9, []⟩ (some 0) (some 8)
        none none false true true true none =
      ⟨none, 8, raisedCommit 5 0, none, none, none, none, none, true⟩ :=
  ⟨by decide,
    sendProofHash_stale_drop bootKeccak 2 3 9 ⟨0, 5⟩ ⟨"n", "i", 4, 9, []⟩ 0 8
      none none false true true true none (by decide) (by decide)⟩

/-- C9. At the L1 calldata boundary both sender phases pass an unchecked
uint64 decrement as first argument: Phase H passes batchNumber - 1 to
BuildProofHashTxData and Phase P passes initNumBatch - 1 to
BuildUnTrustedVerifyBatchesTxData, both computed with wrap-around
semantics, so a starting batch number of 0 yields 2^64 - 1 instead of
failing. -/
theorem calldata_decrement_wraps :
    (∀ keccak H P senderAddress task msg oLV oCB oSeq oFB pf apOk bOk atOk oR x y h,
        (sendProofHashStep keccak H P senderAddress task msg oLV oCB oSeq oFB pf apOk
            bOk atOk oR).builtHashArgs = some (x, y, h) →
          x = u64sub msg.batchNumber 1 ∧ y = msg.batchNumberFinal) ∧
    (∀ H P task oSeq oBlk pp bOk aOk x y,
        (sendProofStep H P task oSeq oBlk (some pp) bOk aOk).builtVerifyArgs =
            some (x, y) →
          x = u64sub pp.initNumBatch 1 ∧ y = pp.finalNewBatch) ∧
    u64sub 0 1 = U64 - 1 ∧
    (∀ b, 0 < b → b < U64 → u64sub b 1 = b - 1) := by
  refine ⟨?_, ?_, by decide, fun b h1 h2 => u64sub_eq_sub b 1 (by omega) h2⟩
  · intro keccak H P sa task msg oLV oCB oSeq oFB pf apOk bOk atOk oR x y h hx
    rcases oLV with _ | lv
    · simp [sendProofHashStep] at hx
    rcases oCB with _ | cur
    · simp [sendProofHashStep] at hx
    rcases oSeq with _ | ⟨sb, pr⟩ <;> rcases oFB with _ | fb <;> rcases oR with _ | m2 <;>
      simp only [sendProofHashStep] at hx <;>
      split_ifs at hx <;>
      simp_all
  · intro H P task oSeq oBlk pp bOk aOk x y hx
    rcases oSeq with _ | ⟨sb, pr⟩
    · simp [sendProofStep] at hx
    rcases oBlk with _ | blk
    · simp [sendProofStep] at hx
    simp only [sendProofStep] at hx
    split_ifs at hx <;> simp_all

/-- Concrete instantiation of the C9 wrap at a stored ProverProof with
initNumBatch zero, reaching the calldata builder with 2^64 - 1. -/
theorem calldata_decrement_wraps_witness :
    u64sub 0 1 = U64 - 1 ∧ (U64 - 1 = u64sub 0 1 ∧ (42 : Nat) = 42) :=
  ⟨calldata_decrement_wraps.2.2.1,
    calldata_decrement_wraps.2.1 2 3 ⟨[0], 4, 7, []⟩ (some (10, false)) (some 12)
      ⟨0, 42, 0, 0, [1]⟩ true true (U64 - 1) 42 (by decide)⟩

theorem mem_insertSortedMsg (m : FinalProofMsg) (l : List FinalProofMsg)
    (x : FinalProofMsg) : x ∈ insertSortedMsg m l ↔ x = m ∨ x ∈ l := by
  induction l with
  | nil => simp [insertSortedMsg]
  | cons y ys ih =>
    by_cases h : finalProofMsgLe m y = true <;>
      simp [insertSortedMsg, h, ih] <;> tauto

theorem pairwise_insertSortedMsg (m : FinalProofMsg) (l : List FinalProofMsg)
    (hl : l.Pairwise (fun a b => finalProofMsgLe a b = true)) :
    (insertSortedMsg m l).Pairwise (fun a b => finalProofMsgLe a b = true) := by
  induction l with
  | nil => simp [insertSortedMsg]
  | cons y ys ih =>
    rcases List.pairwise_cons.mp hl with ⟨hy, hys⟩
    by_cases h : finalProofMsgLe m y = true
    · rw [insertSortedMsg, if_pos h]
      refine List.Pairwise.cons ?_ hl
      intro z hz
      rcases List.mem_cons.mp hz with rfl | hz'
      · exact h
      · have h1 := hy z hz'
        simp only [finalProofMsgLe, decide_eq_true_eq] at h h1 ⊢
        omega
    · rw [insertSortedMsg, if_neg h]
      refine List.Pairwise.cons ?_ (ih hys)
      intro z hz
      rcases (mem_insertSortedMsg m ys z).mp hz with rfl | hz'
      · simp only [finalProofMsgLe, decide_eq_true_eq] at h ⊢
        omega
      · exact hy z hz'

theorem pairwise_sortFinalProofMsgList (l : List FinalProofMsg) :
    (sortFinalProofMsgList l).Pairwise (fun a b => finalProofMsgLe a b = true) := by
  induction l with
  | nil => simp [sortFinalProofMsgList]
  | cons y ys ih => exact pairwise_insertSortedMsg y _ ih

theorem pairwise_insertFinalProofMsgCache (c : List FinalProofMsg) (m : FinalProofMsg) :
    (insertFinalProofMsgCache c m).Pairwise (fun a b => finalProofMsgLe a b = true) :=
  pairwise_sortFinalProofMsgList (c ++ [m])

theorem pairwise_foldl_insertCache (msgs : List FinalProofMsg)
    (c0 : List FinalProofMsg) (hne : msgs ≠ []) :
    (msgs.foldl insertFinalProofMsgCache c0).Pairwise
      (fun a b => finalProofMsgLe a b = true) := by
  rcases List.eq_nil_or_concat msgs with rfl | ⟨l, x, rfl⟩
  · exact absurd rfl hne
  · rw [List.concat_eq_append, List.foldl_append]
    exact pairwise_insertFinalProofMsgCache _ x

/-- C7. The future-message cache is a min-priority structure keyed by
batchNumberFinal: after any sequence of insertFinalProofMsgCache calls, a
successful upFinalProofMsgCache pop removes and returns a message whose
batchNumberFinal is minimal among all cached messages; on the empty cache
it returns nil and leaves the cache unchanged; and the sender loop pops
the head only when both the reveal task and the commit slot are empty. -/
theorem finalProofMsgCache_min_heap (msgs : List FinalProofMsg) :
    (∀ m rest,
        upFinalProofMsgCache (msgs.foldl insertFinalProofMsgCache []) = (some m, rest) →
          msgs.foldl insertFinalProofMsgCache [] = m :: rest ∧
          ∀ x ∈ msgs.foldl insertFinalProofMsgCache [],
            m.batchNumberFinal ≤ x.batchNumberFinal) ∧
    upFinalProofMsgCache [] = (none, []) ∧
    (∀ task cache m, fillCommitSlot task (some m) cache = (some m, cache)) ∧
    (∀ t slot cache, fillCommitSlot (some t) slot cache = (slot, cache)) := by
  refine ⟨?_, rfl, ?_, ?_⟩
  · intro m rest hup
    cases hc : msgs.foldl insertFinalProofMsgCache [] with
    | nil => rw [hc] at hup; simp [upFinalProofMsgCache] at hup
    | cons a t =>
      rw [hc] at hup
      simp only [upFinalProofMsgCache, Prod.mk.injEq, Option.some.injEq] at hup
      obtain ⟨rfl, rfl⟩ := hup
      refine ⟨rfl, ?_⟩
      have hne : msgs ≠ [] := by
        intro h
        rw [h] at hc
        simp at hc
      have hpw := pairwise_foldl_insertCache msgs [] hne
      rw [hc] at hpw
      intro x hx
      rcases List.mem_cons.mp hx with rfl | hx'
      · exact Nat.le_refl _
      · have := (List.pairwise_cons.mp hpw).1 x hx'
        simpa [finalProofMsgLe] using this
  · intro task cache m
    cases task <;> rfl
  · intro t slot cache
    rfl

/-- Concrete instantiation of the C7 pop: of two cached messages the one
with the smaller batchNumberFinal comes out first. -/
theorem finalProofMsgCache_min_heap_witness :
    ([⟨"a", "b", 1, 5, []⟩, ⟨"c", "d", 2, 3, []⟩] : List FinalProofMsg).foldl
        insertFinalProofMsgCache [] =
      ⟨"c", "d", 2, 3, []⟩ :: [⟨"a", "b", 1, 5, []⟩] :=
  ((finalProofMsgCache_min_heap [⟨"a", "b", 1, 5, []⟩, ⟨"c", "d", 2, 3, []⟩]).1
    ⟨"c", "d", 2, 3, []⟩ [⟨"a", "b", 1, 5, []⟩] (by decide)).1

/-- C3 counterexample: with L1 verified only up to batch 2, the boot-time
replay pushes onto proofHashCh a reveal task for batches 4..4 (it walks
from the last submitted reveal, never consulting
lastVerifiedEthBatchNum), and SendProof then submits that reveal even
though its batchNumber 4 exceeds lastVerifiedEthBatchNum + 1 = 3. -/
theorem bootReplay_skips_verified_check_counterexample :
    (submitPendingProofs bootKeccak 9 bootEnvFixture 5).pushed =
      [⟨senderProofHash bootKeccak [1] 9, 4, 4, buildMonitoredHashTxID 4 4⟩] ∧
    bootEnvFixture.lastVerifiedEthBatchNum + 1 < 4 ∧
    (sendProofStep 2 3 ⟨senderProofHash bootKeccak [1] 9, 4, 4, buildMonitoredHashTxID 4 4⟩
        (some (10, false)) (some 12) (some ⟨4, 4, 0, 0, [1]⟩) true true).addedTxID =
      some (buildMonitoredTxID 4 4) := by decide

/-- C3 (amended). Every push onto proofHashCh performed by monitorSendProof
first establishes lastVerifiedEthBatchNum + 1 = batchNumber and pushes the
task for exactly that batch range; the boot-time replay performs no such
check and can enqueue reveals beyond lastVerifiedEthBatchNum + 1. -/
theorem monitorSendProof_push_guard (H P b bf lv : Nat) (id : List Char)
    (oBlk : Option Nat) (oSeq : Option (Nat × Bool)) (oph : HashLookup)
    (t : ProofHashTask)
    (hp : monitorSendProofTick H P b bf id oBlk (some lv) oSeq oph = .push t) :
    lv + 1 = b ∧ t.batchNumber = b ∧ t.batchNumberFinal = bf := by
  rcases oBlk with _ | blk
  · simp [monitorSendProofTick] at hp
  rcases oSeq with _ | ⟨ph, pr⟩ <;> rcases oph with h | _ | _ <;>
    simp only [monitorSendProofTick] at hp <;>
    split_ifs at hp with h1 h2 h3 <;>
    injection hp with h4 <;>
    (subst h4; exact ⟨by omega, rfl, rfl⟩)

/-- Concrete instantiation of the C3 monitor guard on a successful push. -/
theorem monitorSendProof_push_guard_witness :
    (4 : Nat) + 1 = 5 ∧ (ProofHashTask.mk [9] 5 7 []).batchNumber = 5 ∧
      (ProofHashTask.mk [9] 5 7 []).batchNumberFinal = 7 :=
  monitorSendProof_push_guard 2 3 5 7 4 [] (some 12) (some (10, false)) (.found [9])
    ⟨[9], 5, 7, []⟩ (by decide)
